import Mathlib

/-!
# Factor analytics engine of the factor-platform-web dashboard

A shallow embedding of the computational core of `src/app/page.tsx`
(and its near-verbatim variants under `src/unnamed/`): the date-range
filter, the cumulative growth curve, the risk/return metrics calculator,
the global-wave event alignment, and the rank-heatmap integer encoding.

JavaScript numbers are embedded as exact rationals (`ℚ`) where the code
performs only field operations, and as real numbers (`ℝ`) where it calls
`Math.sqrt` / `Math.pow`; `null` is `Option.none`.
-/

namespace FactorPlatform

/-! ## Data model (`ReturnsResp`, `MetricRow` of `src/app/page.tsx`) -/

/-- The return-series artifact consumed by the dashboard
(`type ReturnsResp` in `src/app/page.tsx`): a factor label, a list of
date strings and the parallel list of periodic returns. -/
structure ReturnsResp where
  factor : String
  dates : List String
  ret : List ℚ
deriving DecidableEq, Repr

/-! ## Date parsing and the date-range filter (`parseDate`, `clipByRange`) -/

/-- The numeric value of a decimal digit character, `none` otherwise. -/
def charDigit? (c : Char) : Option Nat :=
  if c.isDigit then some (c.toNat - 48) else none

/-- The numeric value of a non-empty all-digit character list, `none`
otherwise. -/
def digitsVal? (cs : List Char) : Option Nat :=
  if cs = [] then none
  else
    cs.foldl
      (fun acc c =>
        match acc, charDigit? c with
        | some n, some d => some (n * 10 + d)
        | _, _ => none)
      (some 0)

/-- Splits a character list on the `-` separator (every occurrence, the
way `String.split` behaves on the date strings the dashboard consumes). -/
def splitOnDash : List Char → List (List Char)
  | [] => [[]]
  | c :: cs =>
    let r := splitOnDash cs
    if c = '-' then [] :: r
    else
      match r with
      | [] => [[c]]
      | h :: t => (c :: h) :: t

/-- Models `parseDate` of `src/app/page.tsx` (`new Date(s)` followed by the
`Number.isNaN(d.getTime())` validity check) on the ISO-8601 calendar-date
strings the artifacts carry: a `YYYY-MM-DD` string with in-range month and
day parses to an integer ordinal whose order agrees with calendar order,
anything else yields `none` (the JavaScript Invalid Date). -/
def parseDate (s : String) : Option Int :=
  match splitOnDash s.data with
  | [ys, ms, ds] =>
    match digitsVal? ys, digitsVal? ms, digitsVal? ds with
    | some y, some m, some d =>
      if 1 ≤ m ∧ m ≤ 12 ∧ 1 ≤ d ∧ d ≤ 31 then
        some ((y : Int) * 372 + (m : Int) * 31 + (d : Int))
      else none
    | _, _, _ => none
  | _ => none

/-- `clipByRange` of `src/app/page.tsx`: restrict a return series to the
observations whose date parses into the closed interval `[start, stop]`;
when either bound fails to parse the series is returned unchanged. The
source loops over the indices of `dates` and reads `ret[i]` alongside;
under the data model's `len(dates) == len(returns)` invariant that loop
is the filter of the zip of the two lists. -/
def clipByRange (d : ReturnsResp) (start stop : String) : ReturnsResp :=
  match parseDate start, parseDate stop with
  | some s, some e =>
    let pairs := (d.dates.zip d.ret).filter fun p =>
      match parseDate p.1 with
      | none => false
      | some di => decide (s ≤ di ∧ di ≤ e)
    { d with dates := pairs.map Prod.fst, ret := pairs.map Prod.snd }
  | _, _ => d

/-- The spec's description of which observations the date-range filter
keeps: the date parses and its value lies in the closed interval. -/
def InRange (s e : Int) (ds : String) : Prop :=
  ∃ di, parseDate ds = some di ∧ s ≤ di ∧ di ≤ e

instance (s e : Int) (ds : String) : Decidable (InRange s e ds) :=
  match h : parseDate ds with
  | none => .isFalse (by simp [InRange, h])
  | some di => decidable_of_iff (s ≤ di ∧ di ≤ e) (by simp [InRange, h])

/-! ## Cumulative curve (`toCum`) -/

/-- The stateful `retArr.map((r) => (v *= 1 + r))` of `toCum` in
`src/app/page.tsx`, with the running value `v` made explicit. -/
def toCumAux {α : Type*} [CommRing α] (v : α) : List α → List α
  | [] => []
  | r :: rs =>
    let v2 := v * (1 + r)
    v2 :: toCumAux v2 rs

/-- `toCum` of `src/app/page.tsx`: the cumulative growth-of-1 curve of a
periodic return series, starting from the implicit value `1`. -/
def toCum {α : Type*} [CommRing α] (retArr : List α) : List α :=
  toCumAux 1 retArr

/-! ## Maximum drawdown (`maxDrawdownFromReturns`) -/

/-- One loop iteration of `maxDrawdownFromReturns` in `src/app/page.tsx`:
the state is `(peak, nav, maxdd)`; the step compounds the NAV, raises the
running peak, and lowers the running most-negative drawdown. -/
def mddStep {α : Type*} [LinearOrderedField α] (s : α × α × α) (r : α) : α × α × α :=
  let nav := s.2.1 * (1 + r)
  let peak := if nav > s.1 then nav else s.1
  let dd := nav / peak - 1
  let maxdd := if dd < s.2.2 then dd else s.2.2
  (peak, nav, maxdd)

/-- `maxDrawdownFromReturns` of `src/app/page.tsx`: walk the NAV curve
restarted from `1`, tracking the running peak, and return the most
negative per-step drawdown `nav / peak - 1` (0 for the empty series). -/
def maxDrawdownFromReturns {α : Type*} [LinearOrderedField α] (ret : List α) : α :=
  (ret.foldl mddStep (1, 1, 0)).2.2

/-! ## Risk/return metrics (`MetricRow`, `calcMetricsFromDailyRet`) -/

/-- `type MetricRow` of `src/app/page.tsx`: one row of the performance
table; `sharpe` is `none` where the code stores `null`. -/
structure MetricRow where
  factor : String
  ann_return : ℝ
  ann_vol : ℝ
  sharpe : Option ℝ
  maxdd : ℝ

/-- `calcMetricsFromDailyRet` of `src/app/page.tsx`: annualized return,
annualized volatility, Sharpe ratio (guarded by the zero-volatility check)
and maximum drawdown of a daily return series; an empty series yields the
default row `(0, 0, null, 0)`. `Math.sqrt` is `Real.sqrt` and
`Math.pow` is the real power. -/
noncomputable def calcMetricsFromDailyRet (factor : String) (ret : List ℝ)
    (rfAnnual : ℝ) (freq : ℝ := 252) : MetricRow :=
  if ret.length = 0 then
    { factor := factor, ann_return := 0, ann_vol := 0, sharpe := none, maxdd := 0 }
  else
    let nav := ret.foldl (fun a r => a * (1 + r)) 1
    let n : ℝ := ret.length
    let ann_return := nav ^ (freq / n) - 1
    let mean := ret.foldl (· + ·) 0 / n
    let var_ := ret.foldl (fun a r => a + (r - mean) ^ 2) 0 / max 1 (n - 1)
    let ann_vol := Real.sqrt (var_ * freq)
    let rfDaily := rfAnnual / freq
    let ex := ret.map (fun r => r - rfDaily)
    let exMean := ex.foldl (· + ·) 0 / n
    let exVar := ex.foldl (fun a r => a + (r - exMean) ^ 2) 0 / max 1 (n - 1)
    let exVol := Real.sqrt (exVar * freq)
    let sharpe := if exVol = 0 then none else some (exMean * freq / exVol)
    let maxdd := maxDrawdownFromReturns ret
    { factor := factor, ann_return := ann_return, ann_vol := ann_vol,
      sharpe := sharpe, maxdd := maxdd }

/-- The spec's sample standard deviation: mean over `n`, squared
deviations summed, Bessel divisor `n - 1` clamped to `1`, square root. -/
noncomputable def specSampleSD (xs : List ℝ) : ℝ :=
  Real.sqrt ((xs.map (fun x => (x - xs.sum / xs.length) ^ 2)).sum
    / max 1 ((xs.length : ℝ) - 1))

/-- The spec's annualized excess volatility: the sample standard deviation
of the per-period excess returns `r - rf / freq`, scaled by `√freq`. -/
noncomputable def specExcessVol (ret : List ℝ) (rfAnnual freq : ℝ) : ℝ :=
  specSampleSD (ret.map (fun r => r - rfAnnual / freq)) * Real.sqrt freq

/-- The spec's annualized mean excess return: the mean of the per-period
excess returns `r - rf / freq`, scaled by `freq`. -/
noncomputable def specExcessMeanAnn (ret : List ℝ) (rfAnnual freq : ℝ) : ℝ :=
  (ret.map (fun r => r - rfAnnual / freq)).sum / ret.length * freq

/-! ## Global-wave event alignment (`gwSignalTraces`) -/

/-- The two event kinds of the global-wave artifact. -/
inductive GwType where
  | peak
  | trough
deriving DecidableEq, Repr

/-- One entry of the `eventPool` built in `gwSignalTraces` of
`src/app/page.tsx`. -/
structure GwEvent where
  type : GwType
  date : String
deriving DecidableEq, Repr

/-- The lexicographic code-unit comparison JavaScript's `<=` performs on
two strings, on their character lists. -/
def jsLeB : List Char → List Char → Bool
  | [], _ => true
  | _ :: _, [] => false
  | a :: as, b :: bs =>
    if a.toNat < b.toNat then true
    else if b.toNat < a.toNat then false
    else jsLeB as bs

/-- `a <= b` on JavaScript strings. -/
def jsLe (a b : String) : Prop := jsLeB a.data b.data = true

instance (a b : String) : Decidable (jsLe a b) := by unfold jsLe; infer_instance

/-- Models `x.findIndex((d) => d >= e.date)` on the benchmark date list
(`gwSignalTraces` of `src/app/page.tsx`), with `none` in place of `-1`:
the index of the first date that is `≥` the event date under the
lexicographic string comparison JavaScript uses. -/
def findIndexGE (edate : String) : List String → Option Nat
  | [] => none
  | d :: ds => if jsLeB edate.data d.data then some 0 else (findIndexGE edate ds).map (· + 1)

/-- The marker series one event kind receives in `gwSignalTraces` of
`src/app/page.tsx`: each event is aligned to the first benchmark date
`≥` its own date (events with no such date are skipped), and the marker
carries that date and the cumulative-curve value at the same index. -/
def gwMarkers (dates : List String) (ret : List ℚ) (t : GwType)
    (events : List GwEvent) : List (String × ℚ) :=
  let y := toCum ret
  events.filterMap fun e =>
    match findIndexGE e.date dates with
    | none => none
    | some idx => if e.type = t then some (dates.getD idx "", y.getD idx 0) else none

/-! ## Rank heatmap encoding (`Home` of `src/app/page.tsx`) -/

/-- The sequential `factorList.forEach((f, i) => (factorToCode[f] = i))`
of `src/app/page.tsx`, with the running index and the dictionary made
explicit: a later assignment to the same label overwrites an earlier one. -/
def buildCode (m : String → Option Nat) (i : Nat) : List String → (String → Option Nat)
  | [] => m
  | f :: fs => buildCode (fun g => if g = f then some i else m g) (i + 1) fs

/-- The finished `factorToCode` dictionary of `src/app/page.tsx`, starting
empty at index `0`. -/
def factorToCode (factorList : List String) : String → Option Nat :=
  buildCode (fun _ => none) 0 factorList

/-- One cell of the heatmap matrix `z` built in `Home` of
`src/app/page.tsx`: the label at `rankedFactors[col][row]` (defaulting to
`""` out of bounds) is coded through `factorToCode`, with the sentinel
`-1` for a label outside the category list. -/
def heatZ (factorList : List String) (rankedFactors : List (List String))
    (row col : Nat) : Int :=
  match factorToCode factorList ((rankedFactors.getD col []).getD row "") with
  | some i => (i : Int)
  | none => -1

/-! ## Heatmap cell text (`Home` of `src/app/page.tsx` and the
`src/unnamed/part_001` variant) -/

/-- The value a rank-matrix cell can hold once JavaScript reads
`rankedReturns?.[col]?.[row]`: a number (kept exact as a rational), `NaN`,
`null`, or `undefined`. -/
inductive JsVal where
  | null
  | undefined
  | nan
  | num (q : ℚ)
deriving DecidableEq, Repr

/-- A natural number as decimal digits left-padded with zeros to `k`
places (the fractional part of `toFixed`). -/
def padDigits (k : Nat) (a : Nat) : String :=
  let s := toString a
  String.mk (List.replicate (k - s.length) '0') ++ s

/-- Models `Number.prototype.toFixed(k)` on the exact rational value of a
finite JavaScript number: round to the nearest multiple of `10⁻ᵏ` (ties
toward `+∞`) and print with exactly `k` fractional digits. -/
def ratToFixed (k : Nat) (q : ℚ) : String :=
  let m : Int := ⌊q * (10 : ℚ) ^ k + 1 / 2⌋
  let sign := if m < 0 then "-" else ""
  let a := m.natAbs
  if k = 0 then sign ++ toString a
  else sign ++ toString (a / 10 ^ k) ++ "." ++ padDigits k (a % 10 ^ k)

/-- The cell percentage text of the main dashboard (`src/app/page.tsx`):
`NA` for `null` and `undefined`, otherwise `(r * 100).toFixed(1) + "%"` —
a `NaN` value reaches the arithmetic branch and prints as `NaN%`. -/
def cellPct : JsVal → String
  | .null => "NA"
  | .undefined => "NA"
  | .nan => "NaN" ++ "%"
  | .num q => ratToFixed 1 (q * 100) ++ "%"

/-- The cell percentage text of the `src/unnamed/part_001` variant, whose
guard also tests `Number.isNaN(r)`: `NA` for `null`, `undefined` and
`NaN`, otherwise `(r * 100).toFixed(2) + "%"`. -/
def cellPctChecked : JsVal → String
  | .null => "NA"
  | .undefined => "NA"
  | .nan => "NA"
  | .num q => ratToFixed 2 (q * 100) ++ "%"

/-- The full hover/label text of one heatmap cell in `src/app/page.tsx`:
the bold factor label, a line break, and the percentage text. -/
def cellTextMain (fname : String) (r : JsVal) : String :=
  "<b style=\"font-size:11px\">" ++ fname ++ "</b><br>" ++ cellPct r

/-! ## Lemmas: the cumulative curve -/

lemma toCumAux_eq {α : Type*} [CommRing α] :
    ∀ (l : List α) (v : α),
      toCumAux v l =
        (List.range l.length).map fun i => v * ((l.take (i + 1)).map (fun r => 1 + r)).prod
  | [], v => by simp [toCumAux]
  | r :: rs, v => by
    simp only [toCumAux, toCumAux_eq rs (v * (1 + r)), List.length_cons,
      List.range_succ_eq_map, List.map_cons, List.map_map]
    congr 1
    · simp
    · refine List.map_congr_left fun i _ => ?_
      simp [Function.comp, List.take_succ_cons, mul_assoc]

lemma toCum_eq {α : Type*} [CommRing α] (l : List α) :
    toCum l = (List.range l.length).map fun i => ((l.take (i + 1)).map (fun r => 1 + r)).prod := by
  rw [toCum, toCumAux_eq]
  exact List.map_congr_left fun i _ => one_mul _

/-! ## Lemmas: maximum drawdown -/

lemma ite_lt_le {α : Type*} [LinearOrder α] (a b : α) : (if a < b then a else b) ≤ b := by
  split
  · exact le_of_lt (by assumption)
  · exact le_rfl

lemma mdd_foldl_le {α : Type*} [LinearOrderedField α] :
    ∀ (l : List α) (s : α × α × α), (l.foldl mddStep s).2.2 ≤ s.2.2
  | [], _ => le_rfl
  | r :: rs, s => by
    rw [List.foldl_cons]
    refine le_trans (mdd_foldl_le rs _) ?_
    simp only [mddStep]
    exact ite_lt_le _ _

lemma mdd_foldl_zero_iff {α : Type*} [LinearOrderedField α] :
    ∀ (l : List α) (p v m : α), 0 < p → v ≤ p → m ≤ 0 →
      ((l.foldl mddStep (p, v, m)).2.2 = 0 ↔
        (m = 0 ∧ List.Chain (· ≤ ·) p (toCumAux v l)))
  | [], p, v, m, _, _, _ => by simp [toCumAux]
  | r :: rs, p, v, m, hp, hv, hm => by
    rw [List.foldl_cons]
    show ((rs.foldl mddStep (mddStep (p, v, m) r)).2.2 = 0 ↔ _)
    simp only [mddStep]
    by_cases hgt : v * (1 + r) > p
    · have hv2 : (0 : α) < v * (1 + r) := lt_trans hp hgt
      rw [if_pos hgt]
      rw [div_self hv2.ne', sub_self]
      have : ¬ ((0 : α) < m) := not_lt.mpr hm
      rw [if_neg this]
      rw [mdd_foldl_zero_iff rs (v * (1 + r)) (v * (1 + r)) m hv2 le_rfl hm]
      simp only [toCumAux, List.chain_cons]
      constructor
      · rintro ⟨h0, hc⟩
        exact ⟨h0, le_of_lt hgt, hc⟩
      · rintro ⟨h0, _, hc⟩
        exact ⟨h0, hc⟩
    · rw [if_neg hgt]
      rcases lt_or_eq_of_le (not_lt.mp hgt) with hlt | heq
      · -- the NAV drops strictly below the running peak: a new negative drawdown
        have hdd : v * (1 + r) / p - 1 < 0 := by
          have : v * (1 + r) / p < 1 := (div_lt_one hp).mpr hlt
          linarith
        have hm2 : (if v * (1 + r) / p - 1 < m then v * (1 + r) / p - 1 else m) < 0 := by
          split
          · exact hdd
          · exact lt_of_le_of_lt (not_lt.mp (by assumption)) hdd
        have hfin : (rs.foldl mddStep
            (p, v * (1 + r), if v * (1 + r) / p - 1 < m then v * (1 + r) / p - 1 else m)).2.2 < 0 :=
          lt_of_le_of_lt (mdd_foldl_le rs _) hm2
        constructor
        · intro h0
          exact absurd h0 (ne_of_lt hfin)
        · rintro ⟨-, hc⟩
          rw [toCumAux] at hc
          rcases (List.chain_cons.mp hc) with ⟨hle, -⟩
          exact absurd hle (not_le.mpr hlt)
      · -- the NAV exactly matches the running peak: drawdown 0, peak unchanged
        have hdd : v * (1 + r) / p - 1 = 0 := by
          rw [heq, div_self hp.ne', sub_self]
        rw [hdd]
        have : ¬ ((0 : α) < m) := not_lt.mpr hm
        rw [if_neg this]
        rw [mdd_foldl_zero_iff rs p (v * (1 + r)) m hp (le_of_eq heq) hm]
        simp only [toCumAux, List.chain_cons]
        constructor
        · rintro ⟨h0, hc⟩
          rw [← heq] at hc
          exact ⟨h0, le_of_eq heq.symm, hc⟩
        · rintro ⟨h0, -, hc⟩
          refine ⟨h0, ?_⟩
          rw [← heq]
          exact hc

/-! ## Lemmas: string comparison and event alignment -/

lemma jsLeB_refl : ∀ l : List Char, jsLeB l l = true
  | [] => rfl
  | c :: cs => by
    simp only [jsLeB, lt_irrefl, if_false]
    exact jsLeB_refl cs

lemma jsLeB_trans :
    ∀ (a b c : List Char), jsLeB a b = true → jsLeB b c = true → jsLeB a c = true
  | [], _, _, _, _ => rfl
  | x :: xs, [], _, hab, _ => by simp [jsLeB] at hab
  | _ :: _, _ :: _, [], _, hbc => by simp [jsLeB] at hbc
  | x :: xs, y :: ys, z :: zs, hab, hbc => by
    simp only [jsLeB] at hab hbc ⊢
    rcases Nat.lt_trichotomy x.toNat y.toNat with hxy | hxy | hxy
    · rcases Nat.lt_trichotomy y.toNat z.toNat with hyz | hyz | hyz
      · rw [if_pos (lt_trans hxy (hyz.trans_le le_rfl))]
      · rw [if_pos (hyz ▸ hxy)]
      · rw [if_pos hyz, if_neg (lt_asymm hyz)] at hbc
        exact absurd hbc (by simp)
    · rcases Nat.lt_trichotomy y.toNat z.toNat with hyz | hyz | hyz
      · rw [if_pos (hxy ▸ hyz)]
      · rw [if_neg (by rw [hxy, hyz]; exact lt_irrefl _),
          if_neg (by rw [hxy, hyz]; exact lt_irrefl _)]
        rw [if_neg (hxy ▸ lt_irrefl _), if_neg (hxy ▸ lt_irrefl _)] at hab
        rw [if_neg (hyz ▸ lt_irrefl _), if_neg (hyz ▸ lt_irrefl _)] at hbc
        exact jsLeB_trans xs ys zs hab hbc
      · rw [if_pos hyz, if_neg (lt_asymm hyz)] at hbc
        exact absurd hbc (by simp)
    · rw [if_pos hxy, if_neg (lt_asymm hxy)] at hab
      exact absurd hab (by simp)

lemma findIndexGE_none_of (edate : String) :
    ∀ dates : List String, (∀ d ∈ dates, jsLeB edate.data d.data = false) →
      findIndexGE edate dates = none
  | [], _ => rfl
  | d :: ds, h => by
    rw [findIndexGE, if_neg (by simp [h d (by simp)]),
      findIndexGE_none_of edate ds fun x hx => h x (by simp [hx])]
    rfl

lemma findIndexGE_some (edate : String) :
    ∀ (dates : List String) (idx : Nat), findIndexGE edate dates = some idx →
      idx < dates.length ∧ jsLeB edate.data ((dates.getD idx "")).data = true ∧
        ∀ j, j < idx → jsLeB edate.data ((dates.getD j "")).data = false
  | [], idx, h => by simp [findIndexGE] at h
  | d :: ds, idx, h => by
    rw [findIndexGE] at h
    by_cases hd : jsLeB edate.data d.data
    · rw [if_pos hd] at h
      cases h
      exact ⟨Nat.succ_pos _, hd, fun j hj => absurd hj (Nat.not_lt_zero j)⟩
    · rw [if_neg hd] at h
      rcases Option.map_eq_some'.mp h with ⟨i, hi, rfl⟩
      obtain ⟨hlen, hge, hlt⟩ := findIndexGE_some edate ds i hi
      refine ⟨Nat.succ_lt_succ hlen, hge, fun j hj => ?_⟩
      cases j with
      | zero => exact Bool.not_eq_true _ ▸ (by simpa using hd)
      | succ j' => exact hlt j' (Nat.lt_of_succ_lt_succ hj)

lemma pairwise_le_getLast :
    ∀ (dates : List String) (dlast : String), List.Pairwise jsLe dates →
      dates.getLast? = some dlast → ∀ d ∈ dates, jsLe d dlast
  | [], _, _, h, _ => by simp at h
  | [d0], dlast, _, h, d => by
    simp only [List.getLast?_singleton, Option.some.injEq] at h
    subst h
    simp only [List.mem_singleton]
    rintro rfl
    unfold jsLe
    exact jsLeB_refl _
  | d0 :: d1 :: ds, dlast, hp, h, d => by
    rw [List.getLast?_cons_cons] at h
    rcases List.pairwise_cons.mp hp with ⟨hd0, hp'⟩
    intro hd
    rcases List.mem_cons.mp hd with rfl | hd'
    · have h1 : jsLe d1 dlast :=
        pairwise_le_getLast (d1 :: ds) dlast hp' h d1 (by simp)
      exact jsLeB_trans _ _ _ (hd0 d1 (by simp)) h1
    · exact pairwise_le_getLast (d1 :: ds) dlast hp' h d hd'

/-! ## Lemmas: the date-range filter -/

lemma filter_idem {α : Type*} (q : α → Bool) (l : List α) :
    (l.filter q).filter q = l.filter q :=
  List.filter_eq_self.mpr fun _ ha => (List.mem_filter.mp ha).2

lemma zip_map_fst_snd {α β : Type*} :
    ∀ l : List (α × β), (l.map Prod.fst).zip (l.map Prod.snd) = l
  | [] => rfl
  | p :: ps => by simp [zip_map_fst_snd ps]

lemma clip_pred_eq_inRange (s e : Int) (p : String × ℚ) :
    (match parseDate p.1 with
     | none => false
     | some di => decide (s ≤ di ∧ di ≤ e)) = decide (InRange s e p.1) := by
  cases h : parseDate p.1 with
  | none => simp [InRange, h]
  | some di => simp [InRange, h]

/-! ## Lemmas: the heatmap code dictionary -/

lemma buildCode_not_mem :
    ∀ (fl : List String) (m : String → Option Nat) (i : Nat) (g : String),
      g ∉ fl → buildCode m i fl g = m g
  | [], _, _, _, _ => rfl
  | f :: fs, m, i, g, h => by
    rw [buildCode, buildCode_not_mem fs _ (i + 1) g (fun hg => h (by simp [hg]))]
    rw [if_neg (fun hg => h (by simp [hg]))]

lemma buildCode_mem :
    ∀ (fl : List String) (m : String → Option Nat) (i : Nat) (g : String),
      fl.Nodup → g ∈ fl → buildCode m i fl g = some (i + fl.indexOf g)
  | [], _, _, _, _, h => by simp at h
  | f :: fs, m, i, g, hnd, h => by
    rcases List.nodup_cons.mp hnd with ⟨hf, hnd'⟩
    rw [buildCode]
    rcases List.mem_cons.mp h with rfl | hg
    · rw [buildCode_not_mem fs _ (i + 1) g hf, if_pos rfl, List.indexOf_cons_self,
        Nat.add_zero]
    · have hne : f ≠ g := fun hgf => hf (hgf ▸ hg)
      rw [buildCode_mem fs _ (i + 1) g hnd' hg, List.indexOf_cons_ne _ hne]
      congr 1
      omega

/-! ## Lemmas: cell text -/

lemma append_percent_ne_NA (s : String) : s ++ "%" ≠ "NA" := by
  intro h
  have hd : (s ++ "%").data = "NA".data := by rw [h]
  rw [String.data_append] at hd
  have h1 : (s.data ++ "%".data).getLast? = some '%' := by
    show (s.data ++ ['%']).getLast? = some '%'
    exact List.getLast?_concat _
  rw [hd] at h1
  simp at h1

/-! ## Lemmas: the metric folds -/

lemma foldl_add_map {α M : Type*} [AddCommMonoid M] (f : α → M) :
    ∀ (l : List α) (c : M), l.foldl (fun a r => a + f r) c = c + (l.map f).sum
  | [], c => by simp
  | x :: xs, c => by
    rw [List.foldl_cons, foldl_add_map f xs (c + f x)]
    simp [add_assoc]

lemma foldl_add_self {M : Type*} [AddCommMonoid M] (l : List M) (c : M) :
    l.foldl (· + ·) c = c + l.sum := by
  have h := foldl_add_map (id : M → M) l c
  simpa using h

lemma foldl_mul_map {α M : Type*} [CommMonoid M] (f : α → M) :
    ∀ (l : List α) (c : M), l.foldl (fun a r => a * f r) c = c * (l.map f).prod
  | [], c => by simp
  | x :: xs, c => by
    rw [List.foldl_cons, foldl_mul_map f xs (c * f x)]
    simp [mul_assoc]

lemma sum_sq_div_max_nonneg (xs : List ℝ) (mean d : ℝ) :
    0 ≤ (xs.map fun x => (x - mean) ^ 2).sum / max 1 d := by
  refine div_nonneg (List.sum_nonneg fun x hx => ?_) (le_trans zero_le_one (le_max_left 1 d))
  rcases List.mem_map.mp hx with ⟨y, -, rfl⟩
  exact sq_nonneg _

/-! ## The claims -/

/-- C2: for every return series `maxDrawdownFromReturns` is `≤ 0`, and it
is `0` exactly when the cumulative growth-of-1 curve, together with its
implicit starting value `1`, is non-decreasing throughout; the empty
series yields `0`. (Proved for every series, which covers the claim's
non-empty ones.) -/
theorem maxDrawdown_nonpos_zero_iff :
    (∀ ret : List ℚ, maxDrawdownFromReturns ret ≤ 0
      ∧ (maxDrawdownFromReturns ret = 0 ↔ List.Chain (· ≤ ·) 1 (toCum ret)))
  ∧ maxDrawdownFromReturns ([] : List ℚ) = 0 := by
  refine ⟨fun ret => ⟨mdd_foldl_le ret (1, 1, 0), ?_⟩, rfl⟩
  exact (mdd_foldl_zero_iff ret 1 1 0 one_pos le_rfl le_rfl).trans (by simp [toCum])

/-- C6: the cumulative curve builder maps `r_1..r_n` to `v_1..v_n` with
`v_i = Π_{j ≤ i} (1 + r_j)` (implicit `v_0 = 1`), and the empty input
yields the empty output. -/
theorem toCum_prefix_products :
    (∀ ret : List ℚ, toCum ret =
      (List.range ret.length).map fun i => ((ret.take (i + 1)).map (fun r => 1 + r)).prod)
  ∧ toCum ([] : List ℚ) = [] :=
  ⟨fun ret => toCum_eq ret, rfl⟩

/-- C3: the date-range filter keeps exactly the observations whose
parseable date lies in the closed interval `[start, stop]`, silently
dropping observations with unparseable dates; when either bound fails to
parse it returns the series unchanged. The operation is a total function,
so it never raises an error. -/
theorem clipByRange_spec (d : ReturnsResp) (s e : String) :
    ((parseDate s = none ∨ parseDate e = none) → clipByRange d s e = d)
  ∧ (∀ ps pe, parseDate s = some ps → parseDate e = some pe →
      (clipByRange d s e).factor = d.factor ∧
      (clipByRange d s e).dates.zip (clipByRange d s e).ret =
        (d.dates.zip d.ret).filter fun p => decide (InRange ps pe p.1)) := by
  constructor
  · intro h
    cases hs : parseDate s with
    | none => simp [clipByRange, hs]
    | some ps =>
      rcases h with h | h
      · exact absurd hs (h ▸ by simp)
      · simp [clipByRange, hs, h]
  · intro ps pe hs he
    refine ⟨?_, ?_⟩
    · simp [clipByRange, hs, he]
    · simp only [clipByRange, hs, he]
      rw [zip_map_fst_snd]
      exact List.filter_congr fun p _ => clip_pred_eq_inRange ps pe p

/-- C8: the date-range filter is idempotent: filtering an already
filtered series by the same bounds returns it unchanged. -/
theorem clipByRange_idempotent (d : ReturnsResp) (s e : String) :
    clipByRange (clipByRange d s e) s e = clipByRange d s e := by
  cases hs : parseDate s with
  | none => simp [clipByRange, hs]
  | some ps =>
    cases he : parseDate e with
    | none => simp [clipByRange, hs, he]
    | some pe =>
      simp only [clipByRange, hs, he]
      rw [zip_map_fst_snd, filter_idem]

/-- C7: with the benchmark dates ascending, an event whose date falls
after the last observation date finds no alignment index and yields no
marker (dropped, not an error); and when an alignment index exists it is
the first observation whose date is `≥` the event date, and the marker
carries that observation's date and its cumulative-curve value. -/
theorem gw_event_alignment (dates : List String) (ret : List ℚ) (e : GwEvent)
    (hsorted : List.Pairwise jsLe dates) :
    (∀ dlast, dates.getLast? = some dlast → jsLeB e.date.data dlast.data = false →
        findIndexGE e.date dates = none ∧ gwMarkers dates ret e.type [e] = [])
  ∧ (∀ idx, findIndexGE e.date dates = some idx →
        idx < dates.length
      ∧ jsLeB e.date.data ((dates.getD idx "")).data = true
      ∧ (∀ j, j < idx → jsLeB e.date.data ((dates.getD j "")).data = false)
      ∧ gwMarkers dates ret e.type [e] = [(dates.getD idx "", (toCum ret).getD idx 0)]) := by
  constructor
  · intro dlast hlast hafter
    have hnone : findIndexGE e.date dates = none := by
      refine findIndexGE_none_of e.date dates fun d hd => ?_
      have hle : jsLe d dlast := pairwise_le_getLast dates dlast hsorted hlast d hd
      cases hx : jsLeB e.date.data d.data
      · rfl
      · exact absurd (jsLeB_trans _ _ _ hx hle) (by simp [hafter])
    exact ⟨hnone, by simp [gwMarkers, hnone]⟩
  · intro idx hidx
    obtain ⟨hlen, hge, hlt⟩ := findIndexGE_some e.date dates idx hidx
    exact ⟨hlen, hge, hlt, by simp [gwMarkers, hidx]⟩

/-- C7 witness: the spec's concrete scenario — an event on 2020-03-15
aligns to 2020-03-16, the first benchmark date `≥` the event date. -/
theorem gw_event_alignment_witness :
    1 < (["2020-03-13", "2020-03-16", "2020-03-20"] : List String).length
  ∧ jsLeB "2020-03-15".data (((["2020-03-13", "2020-03-16", "2020-03-20"] : List String).getD 1 "")).data = true
  ∧ (∀ j, j < 1 →
      jsLeB "2020-03-15".data (((["2020-03-13", "2020-03-16", "2020-03-20"] : List String).getD j "")).data = false)
  ∧ gwMarkers ["2020-03-13", "2020-03-16", "2020-03-20"] [1/100, 2/100, 3/100] GwType.peak
      [{ type := GwType.peak, date := "2020-03-15" }] =
      [((["2020-03-13", "2020-03-16", "2020-03-20"] : List String).getD 1 "",
        (toCum [(1/100 : ℚ), 2/100, 3/100]).getD 1 0)] :=
  (gw_event_alignment ["2020-03-13", "2020-03-16", "2020-03-20"] [1/100, 2/100, 3/100]
    { type := GwType.peak, date := "2020-03-15" } (by decide)).2 1 (by decide)

/-- C9: under the deduplicated category list, each heatmap cell holds the
integer index of its label within that list, and indexing the list with
the cell code reproduces the label (round-trip); a label outside the
category universe yields the sentinel `-1`. -/
theorem heatZ_code_round_trip (factorList : List String)
    (rankedFactors : List (List String)) (row col : Nat) (hnd : factorList.Nodup) :
    ((rankedFactors.getD col []).getD row "" ∈ factorList →
        heatZ factorList rankedFactors row col =
          (factorList.indexOf ((rankedFactors.getD col []).getD row "") : Int)
      ∧ factorList.get? (heatZ factorList rankedFactors row col).toNat =
          some ((rankedFactors.getD col []).getD row ""))
  ∧ ((rankedFactors.getD col []).getD row "" ∉ factorList →
        heatZ factorList rankedFactors row col = -1) := by
  constructor
  · intro hmem
    have hcode : factorToCode factorList ((rankedFactors.getD col []).getD row "") =
        some (factorList.indexOf ((rankedFactors.getD col []).getD row "")) := by
      have h := buildCode_mem factorList (fun _ => none) 0
        ((rankedFactors.getD col []).getD row "") hnd hmem
      simpa [factorToCode] using h
    have hz : heatZ factorList rankedFactors row col =
        (factorList.indexOf ((rankedFactors.getD col []).getD row "") : Int) := by
      rw [heatZ, hcode]
    refine ⟨hz, ?_⟩
    rw [hz, Int.toNat_natCast]
    exact List.indexOf_get? hmem
  · intro hmem
    have hcode : factorToCode factorList ((rankedFactors.getD col []).getD row "") = none := by
      have h := buildCode_not_mem factorList (fun _ => none) 0
        ((rankedFactors.getD col []).getD row "") hmem
      simpa [factorToCode] using h
    rw [heatZ, hcode]

/-- C9 witness: the spec's concrete scenario — categories `["A", "B"]`,
one month ranked `["B", "A"]`: the top cell codes to `1` and decodes back
to `"B"`. -/
theorem heatZ_code_round_trip_witness :
    heatZ ["A", "B"] [["B", "A"]] 0 0 =
      ((["A", "B"] : List String).indexOf ((([["B", "A"]] : List (List String)).getD 0 []).getD 0 "") : Int)
  ∧ (["A", "B"] : List String).get? (heatZ ["A", "B"] [["B", "A"]] 0 0).toNat =
      some ((([["B", "A"]] : List (List String)).getD 0 []).getD 0 "") :=
  (heatZ_code_round_trip ["A", "B"] [["B", "A"]] 0 0 (by decide)).1 (by decide)

/-- C10 counterexample: in the main dashboard (`src/app/page.tsx`) the
guard tests only `null` and `undefined`, so a `NaN` cell value reaches the
arithmetic branch and renders as `NaN%`, not as the `NA` marker — against
the claim that the marker appears exactly for null, undefined, or NaN. -/
theorem cellPct_nan_not_NA : cellPct JsVal.nan = "NaN%" ∧ cellPct JsVal.nan ≠ "NA" := by
  constructor <;> decide

/-- C10 (amended): the per-cell text always shows the category label
together with the percentage text; the main dashboard variant shows the
`NA` marker exactly when the value is `null` or `undefined` (a `NaN`
renders as `NaN%`), while the `src/unnamed/part_001` variant shows `NA`
exactly when the value is `null`, `undefined`, or `NaN`. -/
theorem heatmap_cell_text_na (fname : String) (r : JsVal) :
    (cellPct r = "NA" ↔ r = JsVal.null ∨ r = JsVal.undefined)
  ∧ (cellPctChecked r = "NA" ↔ r = JsVal.null ∨ r = JsVal.undefined ∨ r = JsVal.nan)
  ∧ (∃ pre, cellTextMain fname r = pre ++ fname ++ "</b><br>" ++ cellPct r) := by
  refine ⟨?_, ?_, ⟨"<b style=\"font-size:11px\">", rfl⟩⟩
  · cases r with
    | null => simp [cellPct]
    | undefined => simp [cellPct]
    | nan =>
      simp only [cellPct]
      constructor
      · intro h
        exact absurd h (by decide)
      · rintro (h | h) <;> exact absurd h (by simp)
    | num q =>
      simp only [cellPct]
      constructor
      · intro h
        exact absurd h (append_percent_ne_NA _)
      · rintro (h | h) <;> exact absurd h (by simp)
  · cases r with
    | null => simp [cellPctChecked]
    | undefined => simp [cellPctChecked]
    | nan => simp [cellPctChecked]
    | num q =>
      simp only [cellPctChecked]
      constructor
      · intro h
        exact absurd h (append_percent_ne_NA _)
      · rintro (h | h | h) <;> exact absurd h (by simp)

/-- The Sharpe field of the calculator, rewritten through the spec's
annualized excess mean and excess volatility: the code's
`√(exVar · freq)` is the spec's `√exVar · √freq`. -/
lemma sharpe_eq_spec (factor : String) (ret : List ℝ) (rfAnnual freq : ℝ) :
    (calcMetricsFromDailyRet factor ret rfAnnual freq).sharpe =
      if specExcessVol ret rfAnnual freq = 0 then none
      else some (specExcessMeanAnn ret rfAnnual freq / specExcessVol ret rfAnnual freq) := by
  by_cases hlen : ret.length = 0
  · have hret : ret = [] := List.length_eq_zero.mp hlen
    subst hret
    have hv : specExcessVol [] rfAnnual freq = 0 := by
      simp [specExcessVol, specSampleSD]
    simp [calcMetricsFromDailyRet, hv]
  · simp only [calcMetricsFromDailyRet, if_neg hlen]
    rw [foldl_add_self]
    rw [zero_add]
    rw [foldl_add_map (fun r =>
      (r - (ret.map fun x => x - rfAnnual / freq).sum / (ret.length : ℝ)) ^ 2)]
    rw [zero_add]
    rw [specExcessVol, specSampleSD, List.length_map, specExcessMeanAnn]
    rw [← Real.sqrt_mul (sum_sq_div_max_nonneg (ret.map fun x => x - rfAnnual / freq) _ _) freq]

/-- C1: the Sharpe ratio is `null` exactly when the spec's annualized
excess volatility (sample standard deviation of `r - rf/freq` with
Bessel divisor `max(1, n-1)`, scaled by `√freq`) is zero; otherwise it
equals the annualized mean excess return divided by that volatility (a
real number, hence finite). -/
theorem sharpe_null_iff_excess_vol_zero (factor : String) (ret : List ℝ)
    (rfAnnual freq : ℝ) (hfreq : 0 < freq) :
    ((calcMetricsFromDailyRet factor ret rfAnnual freq).sharpe = none ↔
      specExcessVol ret rfAnnual freq = 0)
  ∧ (specExcessVol ret rfAnnual freq ≠ 0 →
      (calcMetricsFromDailyRet factor ret rfAnnual freq).sharpe =
        some (specExcessMeanAnn ret rfAnnual freq / specExcessVol ret rfAnnual freq)) := by
  constructor
  · by_cases h : specExcessVol ret rfAnnual freq = 0 <;>
      simp [sharpe_eq_spec, h]
  · intro h
    rw [sharpe_eq_spec, if_neg h]

/-- C1 witness: on the series `[0, 1/100]` with `rf = 0`, `freq = 252`. -/
theorem sharpe_null_iff_excess_vol_zero_witness :
    ((calcMetricsFromDailyRet "A" [(0 : ℝ), 1/100] 0 252).sharpe = none ↔
      specExcessVol [(0 : ℝ), 1/100] 0 252 = 0)
  ∧ (specExcessVol [(0 : ℝ), 1/100] 0 252 ≠ 0 →
      (calcMetricsFromDailyRet "A" [(0 : ℝ), 1/100] 0 252).sharpe =
        some (specExcessMeanAnn [(0 : ℝ), 1/100] 0 252 /
          specExcessVol [(0 : ℝ), 1/100] 0 252)) :=
  sharpe_null_iff_excess_vol_zero "A" [(0 : ℝ), 1/100] 0 252 (by norm_num)

/-- C4: for a non-empty series the annualized return is
`NAV ^ (freq / n) - 1` with `NAV = Π (1 + r_i)`; the empty series yields
`0`. -/
theorem annualized_return_formula (factor : String) (ret : List ℝ)
    (rfAnnual freq : ℝ) (hne : ret ≠ []) :
    (calcMetricsFromDailyRet factor ret rfAnnual freq).ann_return =
      ((ret.map fun r => 1 + r).prod) ^ (freq / (ret.length : ℝ)) - 1
  ∧ (calcMetricsFromDailyRet factor [] rfAnnual freq).ann_return = 0 := by
  constructor
  · have hlen : ¬ ret.length = 0 := by simpa [List.length_eq_zero] using hne
    simp only [calcMetricsFromDailyRet, if_neg hlen]
    rw [foldl_mul_map (fun r => (1 : ℝ) + r) ret 1, one_mul]
  · simp [calcMetricsFromDailyRet]

/-- C4 witness: on the one-element series `[1/100]`. -/
theorem annualized_return_formula_witness :
    (calcMetricsFromDailyRet "A" [(1/100 : ℝ)] 0 252).ann_return =
      (([(1/100 : ℝ)].map fun r => 1 + r).prod) ^
        ((252 : ℝ) / (([(1/100 : ℝ)] : List ℝ).length : ℝ)) - 1
  ∧ (calcMetricsFromDailyRet "A" [] 0 252).ann_return = 0 :=
  annualized_return_formula "A" [(1/100 : ℝ)] 0 252 (by simp)

/-- C5: for a non-empty series the annualized volatility is the sample
standard deviation of the periodic returns (Bessel divisor `max(1, n-1)`)
scaled by `√freq`; the empty series yields `0`. -/
theorem annualized_vol_formula (factor : String) (ret : List ℝ)
    (rfAnnual freq : ℝ) (hne : ret ≠ []) :
    (calcMetricsFromDailyRet factor ret rfAnnual freq).ann_vol =
      specSampleSD ret * Real.sqrt freq
  ∧ (calcMetricsFromDailyRet factor [] rfAnnual freq).ann_vol = 0 := by
  constructor
  · have hlen : ¬ ret.length = 0 := by simpa [List.length_eq_zero] using hne
    simp only [calcMetricsFromDailyRet, if_neg hlen]
    rw [foldl_add_self]
    rw [zero_add]
    rw [foldl_add_map (fun r => (r - ret.sum / (ret.length : ℝ)) ^ 2)]
    rw [zero_add]
    rw [specSampleSD]
    rw [← Real.sqrt_mul (sum_sq_div_max_nonneg ret _ _) freq]
  · simp [calcMetricsFromDailyRet]

/-- C5 witness: on the one-element series `[1/100]`. -/
theorem annualized_vol_formula_witness :
    (calcMetricsFromDailyRet "A" [(1/100 : ℝ)] 0 252).ann_vol =
      specSampleSD [(1/100 : ℝ)] * Real.sqrt 252
  ∧ (calcMetricsFromDailyRet "A" [] 0 252).ann_vol = 0 :=
  annualized_vol_formula "A" [(1/100 : ℝ)] 0 252 (by simp)

end FactorPlatform
